import Mathlib

/-
Verification of the DLinear anomaly-detection model
(paddlets/models/anomaly/dl/dlinear_ad.py) against its specification.

Tensors of shape [B, L, C] are embedded as nested lists of rationals
(exact arithmetic standing in for floating point): the outer list is the
batch axis, each element a matrix whose rows are timesteps and whose
columns are channels.  Paddle library primitives used by the source
(tile/concat edge padding, transpose(perm=[0,2,1]), AvgPool1D, Linear,
mse_loss, mean over the last axis) are embedded by their documented
semantics.
-/

abbrev Mat : Type := List (List ℚ)
abbrev Tensor3 : Type := List Mat

/-- Entry [b][l][c] of a [B, L, C] tensor (0 outside the tensor). -/
def ent3 (x : Tensor3) (b l c : Nat) : ℚ := ((x.getD b []).getD l []).getD c 0

/-- A matrix is rectangular of width `c`: every row has length `c`. -/
def Rect (m : Mat) (c : Nat) : Prop := ∀ row ∈ m, row.length = c

/-- A [B, L, C] tensor: every batch element has `l` rows, each of width `c`. -/
def Rect3 (x : Tensor3) (l c : Nat) : Prop := ∀ mb ∈ x, mb.length = l ∧ Rect mb c

instance (m : Mat) (c : Nat) : Decidable (Rect m c) := by
  unfold Rect; infer_instance

instance (x : Tensor3) (l c : Nat) : Decidable (Rect3 x l c) := by
  unfold Rect3; infer_instance

/- ### Generic list lemmas used throughout -/

theorem getD_range_map {α : Type} (d : α) (g : Nat → α) (n i : Nat) (h : i < n) :
    ((List.range n).map g).getD i d = g i := by
  rw [List.getD_eq_getElem _ d (by simpa using h)]
  simp

theorem getD_map_of_lt {α β : Type} (f : α → β) (m : List α) (i : Nat)
    (h : i < m.length) (d : β) (d0 : α) :
    (m.map f).getD i d = f (m.getD i d0) := by
  rw [List.getD_eq_getElem _ d (by simpa using h), List.getD_eq_getElem _ d0 h]
  simp

theorem rect_getD {m : Mat} {c : Nat} (h : Rect m c) {i : Nat} (hi : i < m.length) :
    (m.getD i []).length = c := by
  rw [List.getD_eq_getElem _ [] hi]
  exact h _ (List.getElem_mem hi)

theorem rect3_getD {x : Tensor3} {l c : Nat} (h : Rect3 x l c) {b : Nat}
    (hb : b < x.length) : (x.getD b []).length = l ∧ Rect (x.getD b []) c := by
  rw [List.getD_eq_getElem _ [] hb]
  exact h _ (List.getElem_mem hb)

theorem headD_length_of_rect {m : Mat} {c : Nat} (h : Rect m c) (hne : m ≠ []) :
    (m.headD []).length = c := by
  cases m with
  | nil => exact absurd rfl hne
  | cons r t => exact h r (List.mem_cons_self r t)

theorem getLastD_mem {α : Type} (l : List α) (d : α) (h : l ≠ []) : l.getLastD d ∈ l := by
  induction l with
  | nil => exact absurd rfl h
  | cons a t ih =>
    cases t with
    | nil => simp
    | cons b u => simpa using Or.inr (ih (by simp))

/- ### Columns and paddle transpose(perm=[0,2,1]) -/

/-- Column `j` of a matrix (channel series when rows are timesteps). -/
def colj (m : Mat) (j : Nat) : List ℚ := m.map (fun row => row.getD j 0)

/-- Matrix transpose, embedding paddle `transpose(perm=[0,2,1])` applied to one
batch element: the width is read off the first row, as paddle reads it off the
(rectangular) tensor shape. -/
def transposeMat (m : Mat) : Mat :=
  (List.range (m.headD []).length).map (colj m)

theorem colj_length (m : Mat) (j : Nat) : (colj m j).length = m.length := by
  simp [colj]

theorem colj_getD (m : Mat) (j i : Nat) :
    (colj m j).getD i 0 = (m.getD i []).getD j 0 := by
  by_cases hi : i < m.length
  · exact getD_map_of_lt _ m i hi 0 []
  · push_neg at hi
    rw [List.getD_eq_default _ _ (by simpa [colj] using hi),
        List.getD_eq_default _ _ hi]
    simp

theorem colj_drop (m : Mat) (j a : Nat) : colj (m.drop a) j = (colj m j).drop a := by
  simp [colj, List.map_drop]

theorem colj_take (m : Mat) (j a : Nat) : colj (m.take a) j = (colj m j).take a := by
  simp [colj, List.map_take]

theorem transposeMat_length (m : Mat) :
    (transposeMat m).length = (m.headD []).length := by
  simp [transposeMat]

theorem transposeMat_getD (m : Mat) (j : Nat) (hj : j < (m.headD []).length) :
    (transposeMat m).getD j [] = colj m j :=
  getD_range_map [] (colj m) _ j hj

theorem transposeMat_rect (m : Mat) : Rect (transposeMat m) m.length := by
  intro row hrow
  rcases List.mem_map.mp hrow with ⟨j, _, rfl⟩
  exact colj_length m j

/- ### paddle.nn.AvgPool1D (padding=0) -/

/-- Number of output positions of a 1-D pooling of window `k` and stride
`stride` over a sequence of length `len` with no padding. -/
def numWindows (k stride len : Nat) : Nat :=
  if len < k then 0 else (len - k) / stride + 1

/-- Embeds paddle.nn.AvgPool1D(kernel_size=k, stride=stride, padding=0) on one
1-D sequence: output position `i` is the arithmetic mean of the window of `k`
entries starting at `i * stride`. -/
def avgPool1d (k stride : Nat) (xs : List ℚ) : List ℚ :=
  (List.range (numWindows k stride xs.length)).map
    (fun i => ((xs.drop (i * stride)).take k).sum / (k : ℚ))

theorem avgPool1d_length (k stride : Nat) (xs : List ℚ) :
    (avgPool1d k stride xs).length = numWindows k stride xs.length := by
  simp [avgPool1d]

theorem avgPool1d_getD (k stride : Nat) (xs : List ℚ) (i : Nat)
    (h : i < numWindows k stride xs.length) :
    (avgPool1d k stride xs).getD i 0 = ((xs.drop (i * stride)).take k).sum / (k : ℚ) :=
  getD_range_map 0 _ _ i h

theorem numWindows_stride_one (k len : Nat) (hlen : k ≤ len) :
    numWindows k 1 len = len - k + 1 := by
  unfold numWindows
  rw [if_neg (by omega)]
  simp

/- ### moving_avg (dlinear_ad.py:24-43) -/

/-- State of the moving_avg layer: moving_avg.__init__ (dlinear_ad.py:29-33)
stores kernel_size and builds AvgPool1D(kernel_size, stride, padding=0). -/
structure MovingAvg where
  kernel_size : Nat
  stride : Nat
deriving DecidableEq

/-- Embeds moving_avg.__init__ (dlinear_ad.py:29-33).  The constructor performs
no validation of kernel_size whatsoever, so construction always succeeds; the
Except result type is only there to let the spec's claimed ConfigurationError
failure mode be stated. -/
def MovingAvg.init (kernel_size stride : Nat) : Except String MovingAvg :=
  Except.ok ⟨kernel_size, stride⟩

/-- The edge padding built in moving_avg.forward (dlinear_ad.py:36-40): `front`
replicates the first timestep `p` times, `end` replicates the last timestep `p`
times, and the three pieces are concatenated along the time axis. -/
def padEdges (p : Nat) (xb : Mat) : Mat :=
  List.replicate p (xb.headD []) ++ xb ++ List.replicate p (xb.getLastD [])

/-- One batch element of moving_avg.forward: pad the time axis by replicated
edge timesteps, transpose to [C, L], average-pool the last axis, transpose
back. -/
def maElem (k stride p : Nat) (xb : Mat) : Mat :=
  transposeMat ((transposeMat (padEdges p xb)).map (avgPool1d k stride))

/-- Embeds moving_avg.forward (dlinear_ad.py:35-43): pad the time axis by
replicated edge timesteps with p = (kernel_size - 1) / 2 (integer division),
transpose to [B, C, L], average-pool the last axis, transpose back. -/
def MovingAvg.forward (ma : MovingAvg) (x : Tensor3) : Tensor3 :=
  x.map (maElem ma.kernel_size ma.stride ((ma.kernel_size - 1) / 2))

/- ### series_decomp (dlinear_ad.py:46-58) -/

/-- State of the series_decomp layer. -/
structure SeriesDecomp where
  moving_avg : MovingAvg

/-- Embeds series_decomp.__init__ (dlinear_ad.py:51-53): builds a moving_avg
with the given kernel_size and stride=1. -/
def SeriesDecomp.init (kernel_size : Nat) : SeriesDecomp :=
  ⟨⟨kernel_size, 1⟩⟩

/-- Elementwise subtraction of equally-shaped [B, L, C] tensors (paddle `-`). -/
def tensorSub (a b : Tensor3) : Tensor3 :=
  List.zipWith (fun ma mb =>
    List.zipWith (fun ra rb => List.zipWith (fun p q => p - q) ra rb) ma mb) a b

/-- Elementwise addition of equally-shaped [B, L, C] tensors (paddle `+`). -/
def tensorAdd (a b : Tensor3) : Tensor3 :=
  List.zipWith (fun ma mb =>
    List.zipWith (fun ra rb => List.zipWith (fun p q => p + q) ra rb) ma mb) a b

/-- Embeds series_decomp.forward (dlinear_ad.py:55-58): the trend is the moving
average of the input, the residual (seasonal) part is the input minus the
trend; returns (residual, trend). -/
def SeriesDecomp.forward (sd : SeriesDecomp) (x : Tensor3) : Tensor3 × Tensor3 :=
  (tensorSub x (sd.moving_avg.forward x), sd.moving_avg.forward x)

/- ### Shape and entry characterization of the moving average -/

theorem padEdges_length (p : Nat) (xb : Mat) :
    (padEdges p xb).length = xb.length + 2 * p := by
  simp [padEdges]
  omega

theorem padEdges_rect {xb : Mat} {c : Nat} (h : Rect xb c) (hne : xb ≠ [])
    (p : Nat) : Rect (padEdges p xb) c := by
  intro row hrow
  simp only [padEdges, List.mem_append, List.mem_replicate] at hrow
  rcases hrow with (⟨-, rfl⟩ | hmem) | ⟨-, rfl⟩
  · exact headD_length_of_rect h hne
  · exact h row hmem
  · exact h _ (getLastD_mem xb [] hne)

theorem maElem_spec (k p L C : Nat) (xb : Mat)
    (hk : k = 2 * p + 1) (hL : 1 ≤ L) (hC : 1 ≤ C)
    (hlen : xb.length = L) (hrect : Rect xb C) :
    (maElem k 1 p xb).length = L ∧ Rect (maElem k 1 p xb) C ∧
    ∀ l c, l < L → c < C →
      ((maElem k 1 p xb).getD l []).getD c 0
        = (colj (((padEdges p xb).drop l).take k) c).sum / (k : ℚ) := by
  have hxbne : xb ≠ [] := by
    intro h
    rw [h] at hlen
    simp at hlen
    omega
  have hplen : (padEdges p xb).length = L + 2 * p := by
    rw [padEdges_length, hlen]
  have hprect : Rect (padEdges p xb) C := padEdges_rect hrect hxbne p
  have hpne : padEdges p xb ≠ [] := by
    intro h
    rw [h] at hplen
    simp at hplen
    omega
  have hphead : ((padEdges p xb).headD []).length = C :=
    headD_length_of_rect hprect hpne
  have htlen : (transposeMat (padEdges p xb)).length = C := by
    rw [transposeMat_length, hphead]
  have hkle : k ≤ L + 2 * p := by omega
  have hnw : numWindows k 1 (L + 2 * p) = L := by
    rw [numWindows_stride_one k _ hkle]
    omega
  have hulen : ((transposeMat (padEdges p xb)).map (avgPool1d k 1)).length = C := by
    rw [List.length_map, htlen]
  have hurect : Rect ((transposeMat (padEdges p xb)).map (avgPool1d k 1)) L := by
    intro row hrow
    rcases List.mem_map.mp hrow with ⟨trow, htrow, rfl⟩
    rcases List.mem_map.mp htrow with ⟨j, -, rfl⟩
    rw [avgPool1d_length, colj_length, hplen, hnw]
  have hune : (transposeMat (padEdges p xb)).map (avgPool1d k 1) ≠ [] := by
    intro h
    rw [h] at hulen
    simp at hulen
    omega
  have huhead : (((transposeMat (padEdges p xb)).map (avgPool1d k 1)).headD []).length = L :=
    headD_length_of_rect hurect hune
  refine ⟨?_, ?_, ?_⟩
  · simp only [maElem]
    rw [transposeMat_length, huhead]
  · simp only [maElem]
    have h := transposeMat_rect ((transposeMat (padEdges p xb)).map (avgPool1d k 1))
    rwa [hulen] at h
  · intro l c hl hc
    simp only [maElem]
    rw [transposeMat_getD _ l (by rw [huhead]; exact hl), colj_getD,
        getD_map_of_lt _ _ c (by rw [htlen]; exact hc) [] [],
        transposeMat_getD _ c (by rw [hphead]; exact hc),
        avgPool1d_getD _ _ _ l (by rw [colj_length, hplen]; omega)]
    rw [mul_one, colj_take, colj_drop]

theorem movingAvg_forward_length (ma : MovingAvg) (x : Tensor3) :
    (ma.forward x).length = x.length := by
  simp [MovingAvg.forward]

theorem movingAvg_forward_getD (ma : MovingAvg) (x : Tensor3) (b : Nat)
    (hb : b < x.length) :
    (ma.forward x).getD b []
      = maElem ma.kernel_size ma.stride ((ma.kernel_size - 1) / 2) (x.getD b []) :=
  getD_map_of_lt _ x b hb [] []

theorem movingAvg_forward_shape (k L C : Nat) (x : Tensor3)
    (hk : k % 2 = 1) (hL : 1 ≤ L) (hC : 1 ≤ C) (hx : Rect3 x L C) :
    Rect3 (MovingAvg.forward ⟨k, 1⟩ x) L C := by
  intro mb hmb
  rcases List.mem_map.mp hmb with ⟨xb, hxb, rfl⟩
  obtain ⟨h1, h2⟩ := hx xb hxb
  have hs := maElem_spec k ((k - 1) / 2) L C xb (by omega) hL hC h1 h2
  exact ⟨hs.1, hs.2.1⟩

/- ### Elementwise (x - t) + t = x, lifted through the tensor layers -/

theorem zip_sub_add (a t : List ℚ) (h : t.length = a.length) :
    List.zipWith (fun p q => p + q) (List.zipWith (fun p q => p - q) a t) t = a := by
  induction a generalizing t with
  | nil => simp
  | cons x xs ih =>
    cases t with
    | nil => simp at h
    | cons y ys =>
      simp only [List.length_cons, Nat.succ.injEq] at h
      simp only [List.zipWith_cons_cons, ih ys h, sub_add_cancel]

theorem mat_sub_add (A T : Mat)
    (h : List.Forall₂ (fun ra rt => rt.length = ra.length) A T) :
    List.zipWith (fun ra rt => List.zipWith (fun p q => p + q) ra rt)
      (List.zipWith (fun ra rt => List.zipWith (fun p q => p - q) ra rt) A T) T
      = A := by
  induction h with
  | nil => simp
  | @cons a t A' T' h1 h2 ih =>
    simp only [List.zipWith_cons_cons, zip_sub_add a t h1, ih]

theorem tensor_sub_add (X T : Tensor3)
    (h : List.Forall₂
      (fun xb tb => List.Forall₂ (fun ra rt => rt.length = ra.length) xb tb) X T) :
    tensorAdd (tensorSub X T) T = X := by
  induction h with
  | nil => simp [tensorAdd, tensorSub]
  | @cons xb tb X' T' h1 h2 ih =>
    simp only [tensorAdd, tensorSub, List.zipWith_cons_cons] at ih ⊢
    rw [mat_sub_add xb tb h1, ih]

theorem forall₂_of_shapes {X T : Tensor3} {L C : Nat}
    (hlen : T.length = X.length) (hX : Rect3 X L C) (hT : Rect3 T L C) :
    List.Forall₂
      (fun xb tb => List.Forall₂ (fun ra rt => rt.length = ra.length) xb tb) X T := by
  rw [List.forall₂_iff_get]
  refine ⟨hlen.symm, fun i h1 h2 => ?_⟩
  obtain ⟨hxl, hxr⟩ := hX _ (X.get_mem i h1)
  obtain ⟨htl, htr⟩ := hT _ (T.get_mem i h2)
  rw [List.forall₂_iff_get]
  refine ⟨by rw [hxl, htl], fun j h1' h2' => ?_⟩
  rw [hxr _ ((X.get ⟨i, h1⟩).get_mem j h1'),
      htr _ ((T.get ⟨i, h2⟩).get_mem j h2')]

/-- C3: for every [B, L, C] input, series_decomp.forward returns a pair
(seasonal, trend) with the trend equal to the smoothed input, the seasonal part
equal to the input minus the trend, and seasonal + trend reconstructing the
input exactly (exact rational arithmetic standing in for floating point). -/
theorem c3_series_decomp_identity (k L C : Nat) (x : Tensor3)
    (hk : k % 2 = 1) (hL : 1 ≤ L) (hC : 1 ≤ C) (hx : Rect3 x L C) :
    ((SeriesDecomp.init k).forward x).2 = MovingAvg.forward ⟨k, 1⟩ x ∧
    ((SeriesDecomp.init k).forward x).1
      = tensorSub x (MovingAvg.forward ⟨k, 1⟩ x) ∧
    tensorAdd ((SeriesDecomp.init k).forward x).1 ((SeriesDecomp.init k).forward x).2
      = x := by
  refine ⟨rfl, rfl, ?_⟩
  exact tensor_sub_add x _
    (forall₂_of_shapes (movingAvg_forward_length _ x) hx
      (movingAvg_forward_shape k L C x hk hL hC hx))

theorem c3_witness :
    (3 % 2 = 1) ∧
    tensorAdd ((SeriesDecomp.init 3).forward [[[1], [2], [4]]]).1
      ((SeriesDecomp.init 3).forward [[[1], [2], [4]]]).2 = [[[1], [2], [4]]] :=
  ⟨by decide,
   (c3_series_decomp_identity 3 3 1 [[[1], [2], [4]]]
     (by decide) (by decide) (by decide) (by decide)).2.2⟩

/-- C4: for every [B, L, C] input and every odd kernel_size k, moving_avg pads
the time axis by replicating the first timestep (k-1)/2 times at the front and
the last timestep (k-1)/2 times at the end (padded length L + k - 1), then
applies a stride-1 sliding-window arithmetic mean with no further padding, so
the output has length exactly L and entry [b, l, c] is the mean of the k padded
timesteps starting at l in channel c. -/
theorem c4_moving_avg_pad_slide (k L C : Nat) (x : Tensor3)
    (hk : k % 2 = 1) (hL : 1 ≤ L) (hC : 1 ≤ C) (hx : Rect3 x L C) :
    (MovingAvg.forward ⟨k, 1⟩ x).length = x.length ∧
    ∀ b, b < x.length →
      (padEdges ((k - 1) / 2) (x.getD b [])).length = L + k - 1 ∧
      ((MovingAvg.forward ⟨k, 1⟩ x).getD b []).length = L ∧
      Rect ((MovingAvg.forward ⟨k, 1⟩ x).getD b []) C ∧
      ∀ l c, l < L → c < C →
        ent3 (MovingAvg.forward ⟨k, 1⟩ x) b l c
          = ((((padEdges ((k - 1) / 2) (x.getD b [])).drop l).take k).map
              (fun row => row.getD c 0)).sum / (k : ℚ) := by
  refine ⟨movingAvg_forward_length _ x, fun b hb => ?_⟩
  obtain ⟨h1, h2⟩ := rect3_getD hx hb
  have hs := maElem_spec k ((k - 1) / 2) L C (x.getD b []) (by omega) hL hC h1 h2
  have hfwd := movingAvg_forward_getD ⟨k, 1⟩ x b hb
  refine ⟨by rw [padEdges_length, h1]; omega, ?_, ?_, ?_⟩
  · rw [hfwd]
    exact hs.1
  · rw [hfwd]
    exact hs.2.1
  · intro l c hl hc
    have := hs.2.2 l c hl hc
    unfold ent3
    rw [hfwd, this, colj]

theorem c4_witness :
    (3 % 2 = 1) ∧ Rect3 [[[1], [2], [4]]] 3 1 ∧
    (MovingAvg.forward ⟨3, 1⟩ [[[1], [2], [4]]]).length = 1 :=
  ⟨by decide, by decide,
   (c4_moving_avg_pad_slide 3 3 1 [[[1], [2], [4]]]
     (by decide) (by decide) (by decide) (by decide)).1⟩

/- ### DLinear_AD._get_loss (dlinear_ad.py:364-383) -/

/-- Embeds paddle.nn.functional.mse_loss(input, label, reduction='none'):
elementwise squared difference (input - label)^2 of equally-shaped tensors. -/
def mseLossNone (input label : Tensor3) : Tensor3 :=
  List.zipWith (fun mi ml =>
    List.zipWith (fun ri rl =>
      List.zipWith (fun a b => (a - b) ^ 2) ri rl) mi ml) input label

/-- Embeds paddle.mean(t, axis=-1): arithmetic mean over the last axis. -/
def meanLastAxis (t : Tensor3) : Mat :=
  t.map (fun mb => mb.map (fun row => row.sum / (row.length : ℚ)))

/-- Embeds DLinear_AD._get_loss (dlinear_ad.py:364-383): the anomaly score is
mse_loss(y_true, y_pred, reduction='none') reduced by mean over axis -1. -/
def DLinearAD.get_loss (y_pred y_true : Tensor3) : Mat :=
  meanLastAxis (mseLossNone y_true y_pred)

theorem getD_zipWith_of_lt {α β γ : Type} (f : α → β → γ) (X : List α)
    (Y : List β) (i : Nat) (h1 : i < X.length) (h2 : i < Y.length)
    (d : γ) (dx : α) (dy : β) :
    (List.zipWith f X Y).getD i d = f (X.getD i dx) (Y.getD i dy) := by
  rw [List.getD_eq_getElem _ d (by rw [List.length_zipWith]; omega),
      List.getD_eq_getElem _ dx h1, List.getD_eq_getElem _ dy h2]
  simp [List.getElem_zipWith]

theorem zipWith_eq_range_map (f : ℚ → ℚ → ℚ) (r1 r2 : List ℚ) (C : Nat)
    (h1 : r1.length = C) (h2 : r2.length = C) :
    List.zipWith f r1 r2
      = (List.range C).map (fun c => f (r1.getD c 0) (r2.getD c 0)) := by
  apply List.ext_getElem (by simp [List.length_zipWith, h1, h2])
  intro i hi1 hi2
  have hiC : i < C := by simpa using hi2
  simp only [List.getElem_zipWith, List.getElem_map, List.getElem_range]
  rw [List.getD_eq_getElem r1 0 (by omega), List.getD_eq_getElem r2 0 (by omega)]

/-- C1: for prediction and ground-truth tensors of shape [B, L, C], _get_loss
yields one scalar per (batch, timestep): the elementwise squared error reduced
by arithmetic mean over the channel axis, score[b, l] =
(1/C) * sum over c of (y_pred[b,l,c] - y_true[b,l,c])^2. -/
theorem c1_get_loss_channel_mean (B L C : Nat) (y_pred y_true : Tensor3)
    (hC : 1 ≤ C) (hBp : y_pred.length = B) (hBt : y_true.length = B)
    (hp : Rect3 y_pred L C) (ht : Rect3 y_true L C) :
    (DLinearAD.get_loss y_pred y_true).length = B ∧
    (∀ b, b < B → ((DLinearAD.get_loss y_pred y_true).getD b []).length = L) ∧
    ∀ b l, b < B → l < L →
      ((DLinearAD.get_loss y_pred y_true).getD b []).getD l 0
        = ((List.range C).map
            (fun c => (ent3 y_pred b l c - ent3 y_true b l c) ^ 2)).sum / (C : ℚ) := by
  have hmlen : (mseLossNone y_true y_pred).length = B := by
    simp [mseLossNone, List.length_zipWith, hBp, hBt]
  have hmb : ∀ b, b < B →
      (mseLossNone y_true y_pred).getD b []
        = List.zipWith (fun ri rl => List.zipWith (fun a b => (a - b) ^ 2) ri rl)
            (y_true.getD b []) (y_pred.getD b []) := by
    intro b hb
    exact getD_zipWith_of_lt _ y_true y_pred b (by omega) (by omega) [] [] []
  refine ⟨by simp [DLinearAD.get_loss, meanLastAxis, hmlen], ?_, ?_⟩
  · intro b hb
    have hgl : (DLinearAD.get_loss y_pred y_true).getD b []
        = ((mseLossNone y_true y_pred).getD b []).map
            (fun row => row.sum / (row.length : ℚ)) := by
      unfold DLinearAD.get_loss meanLastAxis
      exact getD_map_of_lt _ _ b (by omega) [] []
    rw [hgl, List.length_map, hmb b hb, List.length_zipWith,
        (rect3_getD ht (by omega)).1, (rect3_getD hp (by omega)).1]
    omega
  · intro b l hb hl
    have hgl : (DLinearAD.get_loss y_pred y_true).getD b []
        = ((mseLossNone y_true y_pred).getD b []).map
            (fun row => row.sum / (row.length : ℚ)) := by
      unfold DLinearAD.get_loss meanLastAxis
      exact getD_map_of_lt _ _ b (by omega) [] []
    obtain ⟨htl, htr⟩ := rect3_getD ht (show b < y_true.length by omega)
    obtain ⟨hpl, hpr⟩ := rect3_getD hp (show b < y_pred.length by omega)
    have hrowt : ((y_true.getD b []).getD l []).length = C :=
      rect_getD htr (by omega)
    have hrowp : ((y_pred.getD b []).getD l []).length = C :=
      rect_getD hpr (by omega)
    rw [hgl, hmb b hb,
        getD_map_of_lt _ _ l (by rw [List.length_zipWith]; omega) 0 [],
        getD_zipWith_of_lt _ _ _ l (by omega) (by omega) [] [] [],
        zipWith_eq_range_map _ _ _ C hrowt hrowp,
        List.length_map, List.length_range]
    have hcongr : ((List.range C).map
          (fun c => (((y_true.getD b []).getD l []).getD c 0
            - ((y_pred.getD b []).getD l []).getD c 0) ^ 2))
        = ((List.range C).map
          (fun c => (ent3 y_pred b l c - ent3 y_true b l c) ^ 2)) := by
      apply List.map_congr_left
      intro a _
      unfold ent3
      ring
    rw [hcongr]

theorem c1_witness :
    (1 ≤ 2) ∧ (DLinearAD.get_loss [[[1, 2]]] [[[0, 0]]]).length = 1 :=
  ⟨by decide,
   (c1_get_loss_channel_mean 1 1 2 [[[1, 2]]] [[[0, 0]]]
     (by decide) (by decide) (by decide) (by decide) (by decide)).1⟩

/- ### _DLinearModule (dlinear_ad.py:61-130) -/

/-- Parameters of one paddle.nn.Linear layer: weight of shape
[in_features, out_features], bias of shape [out_features]. -/
structure LinearLayer where
  weight : List (List ℚ)
  bias : List ℚ
deriving DecidableEq

/-- Embeds paddle.nn.Linear applied to one vector along the last axis:
y[j] = (sum over i of x[i] * weight[i][j]) + bias[j]. -/
def linearApply (lin : LinearLayer) (x : List ℚ) : List ℚ :=
  (List.range lin.bias.length).map (fun j =>
    (List.zipWith (fun xi row => xi * row.getD j 0) x lin.weight).sum
      + lin.bias.getD j 0)

theorem linearApply_length (lin : LinearLayer) (x : List ℚ) :
    (linearApply lin x).length = lin.bias.length := by
  simp [linearApply]

theorem linearApply_getD (lin : LinearLayer) (x : List ℚ) (j : Nat)
    (h : j < lin.bias.length) :
    (linearApply lin x).getD j 0
      = (List.zipWith (fun xi row => xi * row.getD j 0) x lin.weight).sum
          + lin.bias.getD j 0 :=
  getD_range_map 0 _ _ j h

/-- The two parameter layouts built by _DLinearModule.__init__
(dlinear_ad.py:83-97): with individual=True, Linear_Seasonal and Linear_Trend
are LayerLists holding one Linear per channel; otherwise one shared Linear
each.  The layout records the `individual` flag. -/
inductive DLinearParams where
  | shared (linSeasonal linTrend : LinearLayer)
  | individual (linSeasonal linTrend : List LinearLayer)
deriving DecidableEq

/-- State of _DLinearModule after __init__. -/
structure DLinearModule where
  seq_len : Nat
  pred_len : Nat
  channels : Nat
  params : DLinearParams
deriving DecidableEq

/-- Embeds _DLinearModule.__init__ (dlinear_ad.py:70-99): line 78 assigns
self.pred_len = seq_len, ignoring the constructor's pred_len argument; the
decomposition kernel is fixed to 25 (line 79); the numeric parameter values of
the linear layers (set by init_weight) are taken as the input `params`. -/
def DLinearModule.mk_init (c_in seq_len pred_len : Nat)
    (params : DLinearParams) : DLinearModule :=
  { seq_len := seq_len, pred_len := seq_len, channels := c_in, params := params }

/-- Embeds the individual branch of _DLinearModule.forward
(dlinear_ad.py:106-124) on one transposed [C, L] batch element: a zeros tensor
whose rows have length pred_len is allocated, and row i is overwritten with
Linear[i] applied to channel i for each i below the configured channel count
(the source's assignment loop; indices at or beyond `channels` keep the
zeros). -/
def individualApply (lins : List LinearLayer) (channels pred_len : Nat)
    (mb : Mat) : Mat :=
  (List.range mb.length).map (fun i =>
    if i < channels then linearApply (lins.getD i ⟨[], []⟩) (mb.getD i [])
    else List.replicate pred_len 0)

/-- Embeds _DLinearModule.forward (dlinear_ad.py:101-130): decompose the input
with the kernel-25 series_decomp, transpose both parts to [B, C, L], apply the
seasonal and trend linear maps (shared or per-channel), add the two outputs,
transpose back to [B, L, C], and return the result together with the original
input. -/
def DLinearModule.forward (m : DLinearModule) (x : Tensor3) : Tensor3 × Tensor3 :=
  (List.map transposeMat
    (tensorAdd
      (match m.params with
       | DLinearParams.shared ls _ =>
           (((SeriesDecomp.init 25).forward x).1.map transposeMat).map
             (fun mb => mb.map (linearApply ls))
       | DLinearParams.individual ls _ =>
           (((SeriesDecomp.init 25).forward x).1.map transposeMat).map
             (individualApply ls m.channels m.pred_len))
      (match m.params with
       | DLinearParams.shared _ lt =>
           (((SeriesDecomp.init 25).forward x).2.map transposeMat).map
             (fun mb => mb.map (linearApply lt))
       | DLinearParams.individual _ lt =>
           (((SeriesDecomp.init 25).forward x).2.map transposeMat).map
             (individualApply lt m.channels m.pred_len))),
   x)

/- ### Index-based shape lemmas for the forward pass -/

theorem rect_of_getD {m : Mat} {C : Nat}
    (h : ∀ i, i < m.length → (m.getD i []).length = C) : Rect m C := by
  intro row hrow
  rcases List.mem_iff_getElem.mp hrow with ⟨i, hi, rfl⟩
  have hh := h i hi
  rwa [List.getD_eq_getElem _ [] hi] at hh

theorem rect3_of_getD {x : Tensor3} {L C : Nat}
    (h : ∀ b, b < x.length →
      (x.getD b []).length = L ∧ Rect (x.getD b []) C) : Rect3 x L C := by
  intro mb hmb
  rcases List.mem_iff_getElem.mp hmb with ⟨b, hb, rfl⟩
  have hh := h b hb
  rwa [List.getD_eq_getElem _ [] hb] at hh

theorem tensorSub_length (a b : Tensor3) :
    (tensorSub a b).length = min a.length b.length := by
  simp [tensorSub]

theorem tensorSub_getD (a b : Tensor3) (i : Nat) (h1 : i < a.length)
    (h2 : i < b.length) :
    (tensorSub a b).getD i []
      = List.zipWith (fun ra rb => List.zipWith (fun p q => p - q) ra rb)
          (a.getD i []) (b.getD i []) :=
  getD_zipWith_of_lt _ a b i h1 h2 [] [] []

theorem tensorAdd_length (a b : Tensor3) :
    (tensorAdd a b).length = min a.length b.length := by
  simp [tensorAdd]

theorem tensorAdd_getD (a b : Tensor3) (i : Nat) (h1 : i < a.length)
    (h2 : i < b.length) :
    (tensorAdd a b).getD i []
      = List.zipWith (fun ra rb => List.zipWith (fun p q => p + q) ra rb)
          (a.getD i []) (b.getD i []) :=
  getD_zipWith_of_lt _ a b i h1 h2 [] [] []

theorem tensorSub_rect3 {a b : Tensor3} {L C : Nat}
    (ha : Rect3 a L C) (hb : Rect3 b L C) : Rect3 (tensorSub a b) L C := by
  apply rect3_of_getD
  intro i hi
  rw [tensorSub_length] at hi
  rw [tensorSub_getD a b i (by omega) (by omega)]
  obtain ⟨hal, har⟩ := rect3_getD ha (show i < a.length by omega)
  obtain ⟨hbl, hbr⟩ := rect3_getD hb (show i < b.length by omega)
  constructor
  · rw [List.length_zipWith, hal, hbl]
    omega
  · apply rect_of_getD
    intro l hl
    rw [List.length_zipWith, hal, hbl] at hl
    rw [getD_zipWith_of_lt _ _ _ l (by omega) (by omega) [] [] [],
        List.length_zipWith, rect_getD har (by omega), rect_getD hbr (by omega)]
    omega

theorem decomp_shapes (L C : Nat) (x : Tensor3)
    (hk : (25 : Nat) % 2 = 1) (hL : 1 ≤ L) (hC : 1 ≤ C) (hx : Rect3 x L C) :
    ((SeriesDecomp.init 25).forward x).1.length = x.length ∧
    Rect3 ((SeriesDecomp.init 25).forward x).1 L C ∧
    ((SeriesDecomp.init 25).forward x).2.length = x.length ∧
    Rect3 ((SeriesDecomp.init 25).forward x).2 L C := by
  have hT : Rect3 (MovingAvg.forward ⟨25, 1⟩ x) L C :=
    movingAvg_forward_shape 25 L C x hk hL hC hx
  have hTlen : (MovingAvg.forward ⟨25, 1⟩ x).length = x.length :=
    movingAvg_forward_length _ x
  refine ⟨?_, tensorSub_rect3 hx hT, hTlen, hT⟩
  show (tensorSub x (MovingAvg.forward ⟨25, 1⟩ x)).length = x.length
  rw [tensorSub_length, hTlen]
  omega

theorem addTranspose_spec (L C : Nat) (A B : Mat) (hC : 1 ≤ C)
    (hAlen : A.length = C) (hBlen : B.length = C)
    (hArow : ∀ c, c < C → (A.getD c []).length = L)
    (hBrow : ∀ c, c < C → (B.getD c []).length = L) :
    (transposeMat (List.zipWith
        (fun ra rb => List.zipWith (fun p q => p + q) ra rb) A B)).length = L ∧
    Rect (transposeMat (List.zipWith
        (fun ra rb => List.zipWith (fun p q => p + q) ra rb) A B)) C ∧
    ∀ l c, l < L → c < C →
      ((transposeMat (List.zipWith
          (fun ra rb => List.zipWith (fun p q => p + q) ra rb) A B)).getD l []).getD c 0
        = (A.getD c []).getD l 0 + (B.getD c []).getD l 0 := by
  have hyblen : (List.zipWith
      (fun ra rb => List.zipWith (fun p q => p + q) ra rb) A B).length = C := by
    rw [List.length_zipWith, hAlen, hBlen]
    omega
  have hybget : ∀ c, c < C →
      (List.zipWith (fun ra rb => List.zipWith (fun p q => p + q) ra rb) A B).getD c []
        = List.zipWith (fun p q => p + q) (A.getD c []) (B.getD c []) := by
    intro c hc
    exact getD_zipWith_of_lt _ A B c (by omega) (by omega) [] [] []
  have hybrow : ∀ c, c < C →
      ((List.zipWith (fun ra rb => List.zipWith (fun p q => p + q) ra rb) A B).getD c []).length
        = L := by
    intro c hc
    rw [hybget c hc, List.length_zipWith, hArow c hc, hBrow c hc]
    omega
  have hybrect : Rect (List.zipWith
      (fun ra rb => List.zipWith (fun p q => p + q) ra rb) A B) L := by
    apply rect_of_getD
    intro i hi
    rw [hyblen] at hi
    exact hybrow i hi
  have hybne : List.zipWith
      (fun ra rb => List.zipWith (fun p q => p + q) ra rb) A B ≠ [] := by
    intro hh
    rw [hh] at hyblen
    simp at hyblen
    omega
  have hybhead : ((List.zipWith
      (fun ra rb => List.zipWith (fun p q => p + q) ra rb) A B).headD []).length = L :=
    headD_length_of_rect hybrect hybne
  refine ⟨by rw [transposeMat_length, hybhead], ?_, ?_⟩
  · have h := transposeMat_rect (List.zipWith
      (fun ra rb => List.zipWith (fun p q => p + q) ra rb) A B)
    rwa [hyblen] at h
  · intro l c hl hc
    rw [transposeMat_getD _ l (by rw [hybhead]; omega), colj_getD, hybget c hc,
        getD_zipWith_of_lt _ _ _ l (by rw [hArow c hc]; omega)
          (by rw [hBrow c hc]; omega) 0 0 0]

theorem forward_shared_spec (L C : Nat) (ls lt : LinearLayer)
    (m : DLinearModule) (x : Tensor3)
    (hm : m.params = DLinearParams.shared ls lt)
    (hL : 1 ≤ L) (hC : 1 ≤ C) (hx : Rect3 x L C)
    (hls : ls.bias.length = L) (hlt : lt.bias.length = L) :
    (m.forward x).1.length = x.length ∧
    ∀ b, b < x.length →
      ((m.forward x).1.getD b []).length = L ∧
      Rect ((m.forward x).1.getD b []) C ∧
      ∀ l c, l < L → c < C →
        ent3 (m.forward x).1 b l c
          = (linearApply ls
              (colj (((SeriesDecomp.init 25).forward x).1.getD b []) c)).getD l 0
            + (linearApply lt
              (colj (((SeriesDecomp.init 25).forward x).2.getD b []) c)).getD l 0 := by
  obtain ⟨hSlen, hS3, hTlen, hT3⟩ := decomp_shapes L C x (by norm_num) hL hC hx
  set S := ((SeriesDecomp.init 25).forward x).1 with hSdef
  set T := ((SeriesDecomp.init 25).forward x).2 with hTdef
  set SO := (S.map transposeMat).map (fun mb => mb.map (linearApply ls)) with hSO
  set TO := (T.map transposeMat).map (fun mb => mb.map (linearApply lt)) with hTO
  have hfwd : (m.forward x).1 = List.map transposeMat (tensorAdd SO TO) := by
    rw [hSO, hTO, hSdef, hTdef]
    simp only [DLinearModule.forward, hm]
  have hSOlen : SO.length = x.length := by
    rw [hSO, List.length_map, List.length_map, hSlen]
  have hTOlen : TO.length = x.length := by
    rw [hTO, List.length_map, List.length_map, hTlen]
  have haddlen : (tensorAdd SO TO).length = x.length := by
    rw [tensorAdd_length, hSOlen, hTOlen]
    omega
  refine ⟨by rw [hfwd, List.length_map, haddlen], ?_⟩
  intro b hb
  obtain ⟨hsl, hsr⟩ := rect3_getD hS3 (show b < S.length by omega)
  obtain ⟨htl, htr⟩ := rect3_getD hT3 (show b < T.length by omega)
  have hsne : S.getD b [] ≠ [] := by
    intro hh
    rw [hh] at hsl
    simp at hsl
    omega
  have htne : T.getD b [] ≠ [] := by
    intro hh
    rw [hh] at htl
    simp at htl
    omega
  have hshead : ((S.getD b []).headD []).length = C := headD_length_of_rect hsr hsne
  have hthead : ((T.getD b []).headD []).length = C := headD_length_of_rect htr htne
  have hSOb : SO.getD b [] = (transposeMat (S.getD b [])).map (linearApply ls) := by
    rw [hSO, getD_map_of_lt _ _ b (by rw [List.length_map]; omega) [] [],
        getD_map_of_lt _ _ b (by omega) [] []]
  have hTOb : TO.getD b [] = (transposeMat (T.getD b [])).map (linearApply lt) := by
    rw [hTO, getD_map_of_lt _ _ b (by rw [List.length_map]; omega) [] [],
        getD_map_of_lt _ _ b (by omega) [] []]
  have hSOblen : (SO.getD b []).length = C := by
    rw [hSOb, List.length_map, transposeMat_length, hshead]
  have hTOblen : (TO.getD b []).length = C := by
    rw [hTOb, List.length_map, transposeMat_length, hthead]
  have hSObget : ∀ c, c < C →
      (SO.getD b []).getD c [] = linearApply ls (colj (S.getD b []) c) := by
    intro c hc
    rw [hSOb, getD_map_of_lt _ _ c (by rw [transposeMat_length, hshead]; omega) [] [],
        transposeMat_getD _ c (by rw [hshead]; omega)]
  have hTObget : ∀ c, c < C →
      (TO.getD b []).getD c [] = linearApply lt (colj (T.getD b []) c) := by
    intro c hc
    rw [hTOb, getD_map_of_lt _ _ c (by rw [transposeMat_length, hthead]; omega) [] [],
        transposeMat_getD _ c (by rw [hthead]; omega)]
  have hSObrow : ∀ c, c < C → ((SO.getD b []).getD c []).length = L := by
    intro c hc
    rw [hSObget c hc, linearApply_length, hls]
  have hTObrow : ∀ c, c < C → ((TO.getD b []).getD c []).length = L := by
    intro c hc
    rw [hTObget c hc, linearApply_length, hlt]
  obtain ⟨hy1, hy2, hy3⟩ :=
    addTranspose_spec L C (SO.getD b []) (TO.getD b []) hC hSOblen hTOblen
      hSObrow hTObrow
  have hadd : (tensorAdd SO TO).getD b []
      = List.zipWith (fun ra rb => List.zipWith (fun p q => p + q) ra rb)
          (SO.getD b []) (TO.getD b []) :=
    tensorAdd_getD SO TO b (by omega) (by omega)
  have hout : (m.forward x).1.getD b []
      = transposeMat ((tensorAdd SO TO).getD b []) := by
    rw [hfwd, getD_map_of_lt _ _ b (by rw [haddlen]; omega) [] []]
  refine ⟨?_, ?_, ?_⟩
  · rw [hout, hadd]
    exact hy1
  · rw [hout, hadd]
    exact hy2
  · intro l c hl hc
    unfold ent3
    rw [hout, hadd, hy3 l c hl hc, hSObget c hc, hTObget c hc]

theorem forward_individual_spec (L C : Nat) (ls lt : List LinearLayer)
    (m : DLinearModule) (x : Tensor3)
    (hm : m.params = DLinearParams.individual ls lt)
    (hch : m.channels = C)
    (hL : 1 ≤ L) (hC : 1 ≤ C) (hx : Rect3 x L C)
    (hlsl : ls.length = C) (hltl : lt.length = C)
    (hlsb : ∀ lin ∈ ls, lin.bias.length = L)
    (hltb : ∀ lin ∈ lt, lin.bias.length = L) :
    (m.forward x).1.length = x.length ∧
    ∀ b, b < x.length →
      ((m.forward x).1.getD b []).length = L ∧
      Rect ((m.forward x).1.getD b []) C ∧
      ∀ l c, l < L → c < C →
        ent3 (m.forward x).1 b l c
          = (linearApply (ls.getD c ⟨[], []⟩)
              (colj (((SeriesDecomp.init 25).forward x).1.getD b []) c)).getD l 0
            + (linearApply (lt.getD c ⟨[], []⟩)
              (colj (((SeriesDecomp.init 25).forward x).2.getD b []) c)).getD l 0 := by
  obtain ⟨hSlen, hS3, hTlen, hT3⟩ := decomp_shapes L C x (by norm_num) hL hC hx
  have hlsmem : ∀ c, c < C → (ls.getD c ⟨[], []⟩).bias.length = L := by
    intro c hc
    rw [List.getD_eq_getElem _ _ (by omega : c < ls.length)]
    exact hlsb _ (List.getElem_mem _)
  have hltmem : ∀ c, c < C → (lt.getD c ⟨[], []⟩).bias.length = L := by
    intro c hc
    rw [List.getD_eq_getElem _ _ (by omega : c < lt.length)]
    exact hltb _ (List.getElem_mem _)
  set S := ((SeriesDecomp.init 25).forward x).1 with hSdef
  set T := ((SeriesDecomp.init 25).forward x).2 with hTdef
  set SO := (S.map transposeMat).map (individualApply ls m.channels m.pred_len)
    with hSO
  set TO := (T.map transposeMat).map (individualApply lt m.channels m.pred_len)
    with hTO
  have hfwd : (m.forward x).1 = List.map transposeMat (tensorAdd SO TO) := by
    rw [hSO, hTO, hSdef, hTdef]
    simp only [DLinearModule.forward, hm]
  have hSOlen : SO.length = x.length := by
    rw [hSO, List.length_map, List.length_map, hSlen]
  have hTOlen : TO.length = x.length := by
    rw [hTO, List.length_map, List.length_map, hTlen]
  have haddlen : (tensorAdd SO TO).length = x.length := by
    rw [tensorAdd_length, hSOlen, hTOlen]
    omega
  refine ⟨by rw [hfwd, List.length_map, haddlen], ?_⟩
  intro b hb
  obtain ⟨hsl, hsr⟩ := rect3_getD hS3 (show b < S.length by omega)
  obtain ⟨htl, htr⟩ := rect3_getD hT3 (show b < T.length by omega)
  have hsne : S.getD b [] ≠ [] := by
    intro hh
    rw [hh] at hsl
    simp at hsl
    omega
  have htne : T.getD b [] ≠ [] := by
    intro hh
    rw [hh] at htl
    simp at htl
    omega
  have hshead : ((S.getD b []).headD []).length = C := headD_length_of_rect hsr hsne
  have hthead : ((T.getD b []).headD []).length = C := headD_length_of_rect htr htne
  have hSOb : SO.getD b []
      = individualApply ls m.channels m.pred_len (transposeMat (S.getD b [])) := by
    rw [hSO, getD_map_of_lt _ _ b (by rw [List.length_map]; omega) [] [],
        getD_map_of_lt _ _ b (by omega) [] []]
  have hTOb : TO.getD b []
      = individualApply lt m.channels m.pred_len (transposeMat (T.getD b [])) := by
    rw [hTO, getD_map_of_lt _ _ b (by rw [List.length_map]; omega) [] [],
        getD_map_of_lt _ _ b (by omega) [] []]
  have hSOblen : (SO.getD b []).length = C := by
    rw [hSOb, individualApply, List.length_map, List.length_range,
        transposeMat_length, hshead]
  have hTOblen : (TO.getD b []).length = C := by
    rw [hTOb, individualApply, List.length_map, List.length_range,
        transposeMat_length, hthead]
  have hSObget : ∀ c, c < C →
      (SO.getD b []).getD c []
        = linearApply (ls.getD c ⟨[], []⟩) (colj (S.getD b []) c) := by
    intro c hc
    rw [hSOb, individualApply,
        getD_range_map [] _ _ c (by rw [transposeMat_length, hshead]; omega),
        if_pos (by omega : c < m.channels),
        transposeMat_getD _ c (by rw [hshead]; omega)]
  have hTObget : ∀ c, c < C →
      (TO.getD b []).getD c []
        = linearApply (lt.getD c ⟨[], []⟩) (colj (T.getD b []) c) := by
    intro c hc
    rw [hTOb, individualApply,
        getD_range_map [] _ _ c (by rw [transposeMat_length, hthead]; omega),
        if_pos (by omega : c < m.channels),
        transposeMat_getD _ c (by rw [hthead]; omega)]
  have hSObrow : ∀ c, c < C → ((SO.getD b []).getD c []).length = L := by
    intro c hc
    rw [hSObget c hc, linearApply_length, hlsmem c hc]
  have hTObrow : ∀ c, c < C → ((TO.getD b []).getD c []).length = L := by
    intro c hc
    rw [hTObget c hc, linearApply_length, hltmem c hc]
  obtain ⟨hy1, hy2, hy3⟩ :=
    addTranspose_spec L C (SO.getD b []) (TO.getD b []) hC hSOblen hTOblen
      hSObrow hTObrow
  have hadd : (tensorAdd SO TO).getD b []
      = List.zipWith (fun ra rb => List.zipWith (fun p q => p + q) ra rb)
          (SO.getD b []) (TO.getD b []) :=
    tensorAdd_getD SO TO b (by omega) (by omega)
  have hout : (m.forward x).1.getD b []
      = transposeMat ((tensorAdd SO TO).getD b []) := by
    rw [hfwd, getD_map_of_lt _ _ b (by rw [haddlen]; omega) [] []]
  refine ⟨?_, ?_, ?_⟩
  · rw [hout, hadd]
    exact hy1
  · rw [hout, hadd]
    exact hy2
  · intro l c hl hc
    unfold ent3
    rw [hout, hadd, hy3 l c hl hc, hSObget c hc, hTObget c hc]

theorem colj_padEdges_congr (p c c' : Nat) (xb : Mat) (hne : xb ≠ [])
    (hrows : ∀ row ∈ xb, row.getD c 0 = row.getD c' 0) :
    colj (padEdges p xb) c = colj (padEdges p xb) c' := by
  unfold colj
  apply List.map_congr_left
  intro row hrow
  simp only [padEdges, List.mem_append, List.mem_replicate] at hrow
  rcases hrow with (⟨-, rfl⟩ | hmem) | ⟨-, rfl⟩
  · cases xb with
    | nil => exact absurd rfl hne
    | cons r t => exact hrows r (List.mem_cons_self r t)
  · exact hrows row hmem
  · exact hrows _ (getLastD_mem xb [] hne)

theorem decomp_channel_congr (L C : Nat) (x : Tensor3) (b c c' : Nat)
    (hL : 1 ≤ L) (hC : 1 ≤ C) (hx : Rect3 x L C)
    (hb : b < x.length) (hc : c < C) (hc' : c' < C)
    (hxeq : ∀ l, l < L → ent3 x b l c = ent3 x b l c') :
    colj (((SeriesDecomp.init 25).forward x).1.getD b []) c
      = colj (((SeriesDecomp.init 25).forward x).1.getD b []) c' ∧
    colj (((SeriesDecomp.init 25).forward x).2.getD b []) c
      = colj (((SeriesDecomp.init 25).forward x).2.getD b []) c' := by
  obtain ⟨hxl, hxr⟩ := rect3_getD hx hb
  have hxbne : x.getD b [] ≠ [] := by
    intro hh
    rw [hh] at hxl
    simp at hxl
    omega
  have hrows : ∀ row ∈ x.getD b [], row.getD c 0 = row.getD c' 0 := by
    intro row hrow
    rcases List.mem_iff_getElem.mp hrow with ⟨l, hl, rfl⟩
    have hlL : l < L := by omega
    have hthis := hxeq l hlL
    unfold ent3 at hthis
    rwa [List.getD_eq_getElem _ [] hl] at hthis
  have hpad : colj (padEdges ((25 - 1) / 2) (x.getD b [])) c
      = colj (padEdges ((25 - 1) / 2) (x.getD b [])) c' :=
    colj_padEdges_congr _ c c' (x.getD b []) hxbne hrows
  have hspec := maElem_spec 25 ((25 - 1) / 2) L C (x.getD b []) (by norm_num)
    hL hC hxl hxr
  have htb : ((SeriesDecomp.init 25).forward x).2.getD b []
      = maElem 25 1 ((25 - 1) / 2) (x.getD b []) :=
    movingAvg_forward_getD ⟨25, 1⟩ x b hb
  have htblen : (((SeriesDecomp.init 25).forward x).2.getD b []).length = L := by
    rw [htb]
    exact hspec.1
  have htrend : colj (((SeriesDecomp.init 25).forward x).2.getD b []) c
      = colj (((SeriesDecomp.init 25).forward x).2.getD b []) c' := by
    apply List.ext_getElem (by rw [colj_length, colj_length])
    intro i h1 h2
    have hiL : i < L := by
      rw [colj_length, htblen] at h1
      exact h1
    rw [← List.getD_eq_getElem _ 0, ← List.getD_eq_getElem _ 0,
        colj_getD, colj_getD, htb, hspec.2.2 i c hiL hc, hspec.2.2 i c' hiL hc',
        colj_take, colj_take, colj_drop, colj_drop, hpad]
  refine ⟨?_, htrend⟩
  have hsble : (((SeriesDecomp.init 25).forward x).1.getD b [])
      = List.zipWith (fun ra rb => List.zipWith (fun p q => p - q) ra rb)
          (x.getD b []) (((SeriesDecomp.init 25).forward x).2.getD b []) :=
    tensorSub_getD x _ b hb (by rw [movingAvg_forward_length]; omega)
  have htrect : Rect (((SeriesDecomp.init 25).forward x).2.getD b []) C := by
    rw [htb]
    exact hspec.2.1
  apply List.ext_getElem (by rw [colj_length, colj_length])
  intro i h1 h2
  have hiL : i < L := by
    rw [colj_length, hsble, List.length_zipWith, hxl, htblen] at h1
    omega
  rw [← List.getD_eq_getElem _ 0, ← List.getD_eq_getElem _ 0,
      colj_getD, colj_getD, hsble,
      getD_zipWith_of_lt _ _ _ i (by omega) (by rw [htblen]; omega) [] [] [],
      getD_zipWith_of_lt _ _ _ c (by rw [rect_getD hxr (by omega : i < (x.getD b []).length)]; omega)
        (by rw [rect_getD htrect (by rw [htblen]; omega)]; omega) 0 0 0,
      getD_zipWith_of_lt _ _ _ c' (by rw [rect_getD hxr (by omega : i < (x.getD b []).length)]; omega)
        (by rw [rect_getD htrect (by rw [htblen]; omega)]; omega) 0 0 0]
  have hx1 : ((x.getD b []).getD i []).getD c 0
      = ((x.getD b []).getD i []).getD c' 0 := by
    have hthis := hxeq i hiL
    unfold ent3 at hthis
    exact hthis
  have ht1 : ((((SeriesDecomp.init 25).forward x).2.getD b []).getD i []).getD c 0
      = ((((SeriesDecomp.init 25).forward x).2.getD b []).getD i []).getD c' 0 := by
    have hcongr := congrArg (fun v => v.getD i 0) htrend
    simpa only [colj_getD] using hcongr
  rw [hx1, ht1]

/-- C5: the predictor's forward output is Linear_Seasonal(seasonal) +
Linear_Trend(trend) per channel, reshaped back to [B, L, C]; with
individual=False one shared pair of linear maps is applied identically to every
channel, so identical per-channel decomposed inputs give identical per-channel
outputs; with individual=True each channel has its own pair of maps applied
only to that channel's series, so changing another channel's weights does not
affect this channel's output. -/
theorem c5_linear_predictor (L C c_in P P' c0 : Nat) (ls lt : LinearLayer)
    (lsi lti lsi' lti' : List LinearLayer) (x : Tensor3)
    (hL : 1 ≤ L) (hC : 1 ≤ C) (hx : Rect3 x L C)
    (hls : ls.bias.length = L) (hlt : lt.bias.length = L)
    (hlsl : lsi.length = C) (hltl : lti.length = C)
    (hlsl' : lsi'.length = C) (hltl' : lti'.length = C)
    (hlsb : ∀ lin ∈ lsi, lin.bias.length = L)
    (hltb : ∀ lin ∈ lti, lin.bias.length = L)
    (hlsb' : ∀ lin ∈ lsi', lin.bias.length = L)
    (hltb' : ∀ lin ∈ lti', lin.bias.length = L) :
    (∀ b l c, b < x.length → l < L → c < C →
      ent3 ((DLinearModule.mk_init c_in L P
          (DLinearParams.shared ls lt)).forward x).1 b l c
        = (linearApply ls
            (colj (((SeriesDecomp.init 25).forward x).1.getD b []) c)).getD l 0
          + (linearApply lt
            (colj (((SeriesDecomp.init 25).forward x).2.getD b []) c)).getD l 0) ∧
    ((∀ b l c c', b < x.length → l < L → c < C → c' < C →
        ent3 x b l c = ent3 x b l c') →
      ∀ b l c c', b < x.length → l < L → c < C → c' < C →
        ent3 ((DLinearModule.mk_init c_in L P
            (DLinearParams.shared ls lt)).forward x).1 b l c
          = ent3 ((DLinearModule.mk_init c_in L P
            (DLinearParams.shared ls lt)).forward x).1 b l c') ∧
    (∀ b l c, b < x.length → l < L → c < C →
      ent3 ((DLinearModule.mk_init C L P
          (DLinearParams.individual lsi lti)).forward x).1 b l c
        = (linearApply (lsi.getD c ⟨[], []⟩)
            (colj (((SeriesDecomp.init 25).forward x).1.getD b []) c)).getD l 0
          + (linearApply (lti.getD c ⟨[], []⟩)
            (colj (((SeriesDecomp.init 25).forward x).2.getD b []) c)).getD l 0) ∧
    (lsi.getD c0 ⟨[], []⟩ = lsi'.getD c0 ⟨[], []⟩ →
     lti.getD c0 ⟨[], []⟩ = lti'.getD c0 ⟨[], []⟩ →
      ∀ b l, b < x.length → l < L → c0 < C →
        ent3 ((DLinearModule.mk_init C L P
            (DLinearParams.individual lsi lti)).forward x).1 b l c0
          = ent3 ((DLinearModule.mk_init C L P'
            (DLinearParams.individual lsi' lti')).forward x).1 b l c0) := by
  have hshared := forward_shared_spec L C ls lt
    (DLinearModule.mk_init c_in L P (DLinearParams.shared ls lt)) x rfl
    hL hC hx hls hlt
  have hind := forward_individual_spec L C lsi lti
    (DLinearModule.mk_init C L P (DLinearParams.individual lsi lti)) x rfl rfl
    hL hC hx hlsl hltl hlsb hltb
  have hind' := forward_individual_spec L C lsi' lti'
    (DLinearModule.mk_init C L P' (DLinearParams.individual lsi' lti')) x rfl rfl
    hL hC hx hlsl' hltl' hlsb' hltb'
  refine ⟨?_, ?_, ?_, ?_⟩
  · intro b l c hb hl hc
    exact ((hshared.2 b hb).2.2) l c hl hc
  · intro hxeq b l c c' hb hl hc hc'
    obtain ⟨hcs, hct⟩ := decomp_channel_congr L C x b c c' hL hC hx hb hc hc'
      (fun l' hl' => hxeq b l' c c' hb hl' hc hc')
    rw [((hshared.2 b hb).2.2) l c hl hc, ((hshared.2 b hb).2.2) l c' hl hc',
        hcs, hct]
  · intro b l c hb hl hc
    exact ((hind.2 b hb).2.2) l c hl hc
  · intro hsagree htagree b l hb hl hc0
    rw [((hind.2 b hb).2.2) l c0 hl hc0, ((hind'.2 b hb).2.2) l c0 hl hc0,
        hsagree, htagree]

theorem c5_witness :
    ent3 ((DLinearModule.mk_init 1 1 1
        (DLinearParams.shared ⟨[[1]], [0]⟩ ⟨[[1]], [0]⟩)).forward [[[2]]]).1 0 0 0
      = (linearApply ⟨[[1]], [0]⟩
          (colj (((SeriesDecomp.init 25).forward [[[2]]]).1.getD 0 []) 0)).getD 0 0
        + (linearApply ⟨[[1]], [0]⟩
          (colj (((SeriesDecomp.init 25).forward [[[2]]]).2.getD 0 []) 0)).getD 0 0 :=
  (c5_linear_predictor 1 1 1 1 1 0 ⟨[[1]], [0]⟩ ⟨[[1]], [0]⟩
    [⟨[[1]], [0]⟩] [⟨[[1]], [0]⟩] [⟨[[1]], [0]⟩] [⟨[[1]], [0]⟩] [[[2]]]
    (by decide) (by decide) (by decide) (by decide) (by decide) (by decide)
    (by decide) (by decide) (by decide) (by decide) (by decide) (by decide)
    (by decide)).1 0 0 0 (by decide) (by decide) (by decide)

/-- C6: _DLinearModule.__init__ assigns self.pred_len = seq_len regardless of
the pred_len constructor argument, so the constructed module is independent of
that argument and the forward output's sequence length always equals the input
length L (shown for both the shared and the per-channel parameter layouts). -/
theorem c6_pred_len_ignored (c_in C L P P' : Nat) (params : DLinearParams)
    (ls lt : LinearLayer) (lsi lti : List LinearLayer) (x : Tensor3)
    (hL : 1 ≤ L) (hC : 1 ≤ C) (hx : Rect3 x L C)
    (hls : ls.bias.length = L) (hlt : lt.bias.length = L)
    (hlsl : lsi.length = C) (hltl : lti.length = C)
    (hlsb : ∀ lin ∈ lsi, lin.bias.length = L)
    (hltb : ∀ lin ∈ lti, lin.bias.length = L) :
    (DLinearModule.mk_init c_in L P params
      = DLinearModule.mk_init c_in L P' params) ∧
    ((DLinearModule.mk_init c_in L P params).pred_len = L) ∧
    (((DLinearModule.mk_init c_in L P
        (DLinearParams.shared ls lt)).forward x).1.length = x.length ∧
      ∀ b, b < x.length →
        (((DLinearModule.mk_init c_in L P
          (DLinearParams.shared ls lt)).forward x).1.getD b []).length = L) ∧
    (((DLinearModule.mk_init C L P
        (DLinearParams.individual lsi lti)).forward x).1.length = x.length ∧
      ∀ b, b < x.length →
        (((DLinearModule.mk_init C L P
          (DLinearParams.individual lsi lti)).forward x).1.getD b []).length = L) := by
  have hshared := forward_shared_spec L C ls lt
    (DLinearModule.mk_init c_in L P (DLinearParams.shared ls lt)) x rfl
    hL hC hx hls hlt
  have hind := forward_individual_spec L C lsi lti
    (DLinearModule.mk_init C L P (DLinearParams.individual lsi lti)) x rfl rfl
    hL hC hx hlsl hltl hlsb hltb
  refine ⟨rfl, rfl, ⟨hshared.1, fun b hb => (hshared.2 b hb).1⟩,
    ⟨hind.1, fun b hb => (hind.2 b hb).1⟩⟩

theorem c6_witness :
    (DLinearModule.mk_init 1 1 7 (DLinearParams.shared ⟨[[1]], [0]⟩ ⟨[[1]], [0]⟩)
      = DLinearModule.mk_init 1 1 99 (DLinearParams.shared ⟨[[1]], [0]⟩ ⟨[[1]], [0]⟩)) ∧
    (DLinearModule.mk_init 1 1 7
      (DLinearParams.shared ⟨[[1]], [0]⟩ ⟨[[1]], [0]⟩)).pred_len = 1 :=
  ⟨(c6_pred_len_ignored 1 1 1 7 99
      (DLinearParams.shared ⟨[[1]], [0]⟩ ⟨[[1]], [0]⟩) ⟨[[1]], [0]⟩ ⟨[[1]], [0]⟩
      [⟨[[1]], [0]⟩] [⟨[[1]], [0]⟩] [[[2]]]
      (by decide) (by decide) (by decide) (by decide) (by decide) (by decide)
      (by decide) (by decide) (by decide)).1,
   (c6_pred_len_ignored 1 1 1 7 99
      (DLinearParams.shared ⟨[[1]], [0]⟩ ⟨[[1]], [0]⟩) ⟨[[1]], [0]⟩ ⟨[[1]], [0]⟩
      [⟨[[1]], [0]⟩] [⟨[[1]], [0]⟩] [[[2]]]
      (by decide) (by decide) (by decide) (by decide) (by decide) (by decide)
      (by decide) (by decide) (by decide)).2.1⟩

/- ### Threshold phase of DLinear_AD.fit (dlinear_ad.py:299-303, 326-362) -/

/-- Outcome of the threshold phase of fit: the final scalar threshold and how
many times the calibration procedure (threshold_fn) ran. -/
structure FitThresholdResult where
  threshold : ℚ
  calibrationCalls : Nat
deriving DecidableEq

/-- Modelled from the spec for the anomaly base class (not under src/): the
constructor's optional `threshold` argument is stored into self._threshold
before fit runs ("`threshold` (optional float — if supplied, skips
calibration)").  Everything else embeds code under src/: fit
(dlinear_ad.py:299-303) calls _get_threshold only when self._threshold is
None, and _get_threshold (dlinear_ad.py:326-362) raises when the train
dataloader is None and otherwise invokes threshold_fn exactly once (both the
amp and the non-amp branch make one call).  The calibration data and
threshold_fn are abstract here (paddlets.models.anomaly.dl.utils.get_threshold
is also not under src/); calibrationCalls counts threshold_fn invocations. -/
def DLinearAD.fitThreshold (userThreshold : Option ℚ)
    (trainErrors : Option (List ℚ)) (valErrors : Option (List ℚ))
    (thresholdFn : List ℚ → Option (List ℚ) → ℚ) :
    Except String FitThresholdResult :=
  match userThreshold with
  | some t => Except.ok ⟨t, 0⟩
  | none =>
    match trainErrors with
    | none => Except.error " Please pass in train_tsdataset to calculate the threshold."
    | some dl => Except.ok ⟨thresholdFn dl valErrors, 1⟩

/-- C2: after fit the model holds exactly one scalar threshold: a user-supplied
threshold is kept unchanged and calibration never runs; otherwise calibration
runs exactly once after the training loop, and raises when no train data is
available for calibration. -/
theorem c2_threshold_once (valErrors : Option (List ℚ))
    (thresholdFn : List ℚ → Option (List ℚ) → ℚ) :
    (∀ t trainErrors,
      DLinearAD.fitThreshold (some t) trainErrors valErrors thresholdFn
        = Except.ok ⟨t, 0⟩) ∧
    (DLinearAD.fitThreshold none none valErrors thresholdFn
      = Except.error " Please pass in train_tsdataset to calculate the threshold.") ∧
    (∀ dl, DLinearAD.fitThreshold none (some dl) valErrors thresholdFn
      = Except.ok ⟨thresholdFn dl valErrors, 1⟩) :=
  ⟨fun _ _ => rfl, rfl, fun _ => rfl⟩

/- ### DLinear_AD.predict (dlinear_ad.py:305-324) -/

/-- Embeds the labelling step of DLinear_AD.predict (dlinear_ad.py:316-324)
downstream of scoring: the flattened anomaly scores are compared against the
stored threshold by `anomaly_label = (anomaly_score >= self._threshold) + 0`
and that label vector is returned.  The configured pred_adjust flag and
pred_adjust_fn are accepted but never applied: the `# adjust pred` comment at
line 322 is followed by no code. -/
def DLinearAD.predictLabels (scores : List ℚ) (threshold : ℚ)
    (pred_adjust : Bool) (pred_adjust_fn : List Nat → List Nat) : List Nat :=
  scores.map (fun s => if threshold ≤ s then 1 else 0)

/-- C7 (divergence witness): with pred_adjust enabled, predict still returns
the raw thresholded flags: the adjustment function is never invoked, so on
scores [5, 1, 5] with threshold 3 and the region-merging policy that would
return [1, 1, 1], predict returns [1, 0, 1] and not the adjusted labels. -/
theorem c7_predict_skips_adjust :
    (∀ (scores : List ℚ) (t : ℚ) (fnA fnB : List Nat → List Nat),
      DLinearAD.predictLabels scores t true fnA
        = DLinearAD.predictLabels scores t false fnB) ∧
    DLinearAD.predictLabels [5, 1, 5] 3 true
      (fun l => List.replicate l.length 1) = [1, 0, 1] ∧
    (fun (l : List Nat) => List.replicate l.length 1) [1, 0, 1] = [1, 1, 1] ∧
    DLinearAD.predictLabels [5, 1, 5] 3 true
      (fun l => List.replicate l.length 1) ≠ [1, 1, 1] :=
  ⟨fun _ _ _ _ => rfl, by decide, by decide, by decide⟩

/-- C10: predict labels a timestep by the inclusive comparison
score >= threshold, so a score exactly equal to the threshold is labelled
anomalous (1). -/
theorem c10_threshold_inclusive (scores : List ℚ) (threshold : ℚ)
    (pred_adjust : Bool) (pred_adjust_fn : List Nat → List Nat) (i : Nat)
    (hi : i < scores.length) :
    ((DLinearAD.predictLabels scores threshold pred_adjust pred_adjust_fn).getD i 0 = 1
      ↔ threshold ≤ scores.getD i 0) := by
  unfold DLinearAD.predictLabels
  rw [getD_map_of_lt _ scores i hi 0 0]
  by_cases h : threshold ≤ scores.getD i 0
  · simp [h]
  · simp [h]

theorem c10_witness :
    (DLinearAD.predictLabels [(3 : ℚ)] 3 true id).getD 0 0 = 1 :=
  (c10_threshold_inclusive [(3 : ℚ)] 3 true id 0 (by decide)).mpr (by norm_num)

/-- C8 counterexample: kernel_size 4 is not a positive odd integer, yet
moving_avg construction succeeds (no ConfigurationError is raised anywhere in
moving_avg.__init__). -/
theorem c8_counterexample :
    MovingAvg.init 4 1 = Except.ok ⟨4, 1⟩ ∧ (MovingAvg.init 4 1).isOk = true :=
  ⟨rfl, rfl⟩

/-- C8 (amended): moving_avg.__init__ performs no kernel-size validation, so
construction succeeds for every kernel_size and stride (odd or even); the
enclosing _DLinearModule always passes the fixed valid kernel_size 25, and an
even kernel_size silently changes the forward output length (with kernel 4 a
length-3 input yields length 2, not 3). -/
theorem c8_no_kernel_validation :
    (∀ kernel_size stride,
      MovingAvg.init kernel_size stride = Except.ok ⟨kernel_size, stride⟩) ∧
    ((MovingAvg.forward ⟨4, 1⟩ [[[1], [2], [3]]]).getD 0 []).length = 2 :=
  ⟨fun _ _ => rfl, by decide⟩

/- ### _DLinearModule.init_weight (dlinear_ad.py:132-157) -/

/-- A named parameter tensor as held in a state dict: its shape and its
(flattened) data. -/
structure PTensor where
  shape : List Nat
  data : List ℚ
deriving DecidableEq

/-- A state dict: an ordered name-to-tensor mapping. -/
abbrev StateDict := List (String × PTensor)

/-- Embeds the pretrained branch of _DLinearModule.init_weight
(dlinear_ad.py:132-153): iterate over the model state dict's keys in order;
a key absent from the pretrained dict, or present with a different shape, only
logs a warning and keeps the model's current (initialized) value; otherwise
the pretrained tensor replaces the value and num_params_loaded is incremented;
set_dict then installs the updated dict.  The fold reproduces the source loop
one key at a time, returning the updated dict and the load count. -/
def initWeightLoad (para model : StateDict) : StateDict × Nat :=
  model.foldr (fun kv acc =>
    match List.lookup kv.1 para with
    | none => ((kv.1, kv.2) :: acc.1, acc.2)
    | some p =>
      if p.shape = kv.2.shape then ((kv.1, p) :: acc.1, acc.2 + 1)
      else ((kv.1, kv.2) :: acc.1, acc.2))
    ([], 0)

theorem initWeightLoad_nil (para : StateDict) : initWeightLoad para [] = ([], 0) :=
  rfl

theorem initWeightLoad_cons_none (para rest : StateDict) (a : String)
    (b : PTensor) (h : List.lookup a para = none) :
    initWeightLoad para ((a, b) :: rest)
      = ((a, b) :: (initWeightLoad para rest).1, (initWeightLoad para rest).2) := by
  unfold initWeightLoad
  simp only [List.foldr_cons, h]

theorem initWeightLoad_cons_match (para rest : StateDict) (a : String)
    (b p : PTensor) (h : List.lookup a para = some p) (hs : p.shape = b.shape) :
    initWeightLoad para ((a, b) :: rest)
      = ((a, p) :: (initWeightLoad para rest).1, (initWeightLoad para rest).2 + 1) := by
  unfold initWeightLoad
  simp only [List.foldr_cons, h, if_pos hs]

theorem initWeightLoad_cons_mismatch (para rest : StateDict) (a : String)
    (b p : PTensor) (h : List.lookup a para = some p) (hs : p.shape ≠ b.shape) :
    initWeightLoad para ((a, b) :: rest)
      = ((a, b) :: (initWeightLoad para rest).1, (initWeightLoad para rest).2) := by
  unfold initWeightLoad
  simp only [List.foldr_cons, h, if_neg hs]

theorem initWeightLoad_keys (para model : StateDict) :
    (initWeightLoad para model).1.map Prod.fst = model.map Prod.fst := by
  induction model with
  | nil => rfl
  | cons kv rest ih =>
    obtain ⟨a, b⟩ := kv
    cases hl : List.lookup a para with
    | none => rw [initWeightLoad_cons_none para rest a b hl]; simpa using ih
    | some p =>
      by_cases hs : p.shape = b.shape
      · rw [initWeightLoad_cons_match para rest a b p hl hs]; simpa using ih
      · rw [initWeightLoad_cons_mismatch para rest a b p hl hs]; simpa using ih

theorem initWeightLoad_lookup (para model : StateDict) (k : String) (v : PTensor)
    (h : List.lookup k model = some v) :
    List.lookup k (initWeightLoad para model).1
      = some (match List.lookup k para with
              | none => v
              | some p => if p.shape = v.shape then p else v) := by
  induction model with
  | nil => simp [List.lookup] at h
  | cons kv rest ih =>
    obtain ⟨a, b⟩ := kv
    by_cases hk : k = a
    · subst hk
      have hv : b = v := by simpa [List.lookup] using h
      subst hv
      cases hl : List.lookup k para with
      | none =>
        rw [initWeightLoad_cons_none para rest k b hl]
        simp [List.lookup]
      | some p =>
        by_cases hs : p.shape = b.shape
        · rw [initWeightLoad_cons_match para rest k b p hl hs]
          simp [List.lookup, hs]
        · rw [initWeightLoad_cons_mismatch para rest k b p hl hs]
          simp [List.lookup, hs]
    · have hba : (k == a) = false := beq_eq_false_iff_ne.mpr hk
      have htail : List.lookup k rest = some v := by
        simpa [List.lookup, hba] using h
      have hih := ih htail
      cases hl : List.lookup a para with
      | none =>
        rw [initWeightLoad_cons_none para rest a b hl]
        simpa [List.lookup, hba] using hih
      | some p =>
        by_cases hs : p.shape = b.shape
        · rw [initWeightLoad_cons_match para rest a b p hl hs]
          simpa [List.lookup, hba] using hih
        · rw [initWeightLoad_cons_mismatch para rest a b p hl hs]
          simpa [List.lookup, hba] using hih

theorem initWeightLoad_count_full (para model : StateDict)
    (h : ∀ kv ∈ model, ∃ p, List.lookup kv.1 para = some p
      ∧ p.shape = kv.2.shape) :
    (initWeightLoad para model).2 = model.length := by
  induction model with
  | nil => rfl
  | cons kv rest ih =>
    obtain ⟨a, b⟩ := kv
    obtain ⟨p, hl, hs⟩ := h (a, b) (List.mem_cons_self _ _)
    rw [initWeightLoad_cons_match para rest a b p hl hs, List.length_cons,
        ih (fun kv hkv => h kv (List.mem_cons_of_mem _ hkv))]

theorem initWeightLoad_split (para m1 m2 : StateDict) (k0 : String) (v0 : PTensor)
    (h1 : List.lookup k0 para = none)
    (h2 : ∀ kv ∈ m1 ++ m2, ∃ p, List.lookup kv.1 para = some p
      ∧ p.shape = kv.2.shape) :
    (initWeightLoad para (m1 ++ (k0, v0) :: m2)).1
      = (initWeightLoad para m1).1 ++ (k0, v0) :: (initWeightLoad para m2).1 ∧
    (initWeightLoad para (m1 ++ (k0, v0) :: m2)).2 = m1.length + m2.length := by
  induction m1 with
  | nil =>
    rw [List.nil_append, initWeightLoad_cons_none para m2 k0 v0 h1,
        initWeightLoad_nil]
    exact ⟨rfl, by
      rw [initWeightLoad_count_full para m2 (fun kv hkv => h2 kv (by simpa using hkv))]
      simp⟩
  | cons kv m1' ih =>
    obtain ⟨a, b⟩ := kv
    obtain ⟨p, hl, hs⟩ := h2 (a, b) (by simp)
    have hih := ih (fun kv hkv => h2 kv (by
      simp only [List.cons_append, List.mem_cons] at hkv ⊢
      exact Or.inr hkv))
    rw [List.cons_append, initWeightLoad_cons_match para _ a b p hl hs,
        initWeightLoad_cons_match para m1' a b p hl hs]
    refine ⟨?_, ?_⟩
    · simp only [List.cons_append]
      rw [hih.1]
    · rw [hih.2, List.length_cons]
      omega

/-- C9: init_weight with pretrained parameters loads exactly the parameters
whose name is present in the pretrained mapping with a matching shape; every
missing or shape-mismatched parameter keeps its initialized value
(non-fatally), the key order is preserved, and the reported load count equals
the number of matching parameters — in particular a mapping missing exactly
one parameter name reports num_loaded = total - 1 and leaves that parameter at
its initialized value. -/
theorem c9_init_weight_best_effort (para m1 m2 model : StateDict) (k0 : String)
    (v0 : PTensor)
    (hmodel : model = m1 ++ (k0, v0) :: m2)
    (h1 : List.lookup k0 para = none)
    (h2 : ∀ kv ∈ m1 ++ m2, ∃ p, List.lookup kv.1 para = some p
      ∧ p.shape = kv.2.shape) :
    (∀ (pa mo : StateDict) (k : String) (v : PTensor),
      List.lookup k mo = some v →
      (List.lookup k pa = none →
        List.lookup k (initWeightLoad pa mo).1 = some v) ∧
      (∀ p, List.lookup k pa = some p → p.shape ≠ v.shape →
        List.lookup k (initWeightLoad pa mo).1 = some v) ∧
      (∀ p, List.lookup k pa = some p → p.shape = v.shape →
        List.lookup k (initWeightLoad pa mo).1 = some p)) ∧
    ((initWeightLoad para model).1.map Prod.fst = model.map Prod.fst) ∧
    ((initWeightLoad para model).1
      = (initWeightLoad para m1).1 ++ (k0, v0) :: (initWeightLoad para m2).1) ∧
    ((initWeightLoad para model).2 = model.length - 1) := by
  subst hmodel
  obtain ⟨hsplit1, hsplit2⟩ := initWeightLoad_split para m1 m2 k0 v0 h1 h2
  refine ⟨?_, initWeightLoad_keys para _, hsplit1, ?_⟩
  · intro pa mo k v hmo
    have hchar := initWeightLoad_lookup pa mo k v hmo
    refine ⟨?_, ?_, ?_⟩
    · intro hnone
      rwa [hnone] at hchar
    · intro p hp hne
      rw [hp] at hchar
      simpa [hne] using hchar
    · intro p hp heq
      rw [hp] at hchar
      simpa [heq] using hchar
  · rw [hsplit2]
    simp only [List.length_append, List.length_cons]
    omega

theorem c9_witness :
    (initWeightLoad [("a", ⟨[2], [1, 2]⟩)]
      [("a", ⟨[2], [5, 6]⟩), ("b", ⟨[3], [0, 0, 0]⟩)]).2 = 1 := by
  have h := (c9_init_weight_best_effort [("a", ⟨[2], [1, 2]⟩)]
    [("a", ⟨[2], [5, 6]⟩)] [] [("a", ⟨[2], [5, 6]⟩), ("b", ⟨[3], [0, 0, 0]⟩)]
    "b" ⟨[3], [0, 0, 0]⟩ (by decide) (by decide)
    (by
      intro kv hkv
      simp only [List.append_nil, List.mem_singleton] at hkv
      subst hkv
      exact ⟨⟨[2], [1, 2]⟩, by decide, by decide⟩)).2.2.2
  simpa using h
